import Mathlib

/-!
Verification of the reproducible-identity subsystem and run orchestrator of the
mitosis repository (src/mitosis/init file), against its natural-language
specification.

The Python code is shallowly embedded:
* Python values that can appear as experimental parameters are the inductive
  type PyVal (None, int, str, function objects, dict, list).
* The interpreter state that cleanstr consults (sys.modules and module
  attribute dictionaries) is an explicit Env; object identity is a numeric id
  (CPython id()).
* Fallible Python code is modeled with Except PyError; each PyError
  constructor names the Python exception class it stands for.
* Python sorted() is modeled as a stable left-to-right insertion sort that
  fails (TypeError) as soon as it attempts an unsupported comparison, like
  CPython's comparison-based sort does.
-/

/-- Python exceptions raised by the modeled code paths. -/
inductive PyError where
  | valueError (msg : String)
  | importError (msg : String)
  | typeError (msg : String)
  | runtimeError (msg : String)
  | cellExecutionError (msg : String)
  deriving DecidableEq, Repr

/-- A Python object as reachable through attribute lookup: an identity
(CPython id()) together with its attribute dictionary.  Modules and classes
are both PyObj; functions stored in them are leaves identified by id. -/
inductive PyObj where
  | mk (id : Nat) (attrs : List (String × PyObj))
  deriving Repr

def PyObj.oid : PyObj → Nat
  | .mk i _ => i

def PyObj.attrs : PyObj → List (String × PyObj)
  | .mk _ a => a

/-- The loaded-module table (sys.modules) consulted by cleanstr. -/
structure Env where
  modules : List (String × PyObj)
  deriving Repr

/-- A Python function object as inspected by cleanstr: its introspection
attributes and its identity (which in CPython is also the address shown by
the default repr). -/
structure FuncObj where
  fid : Nat
  fname : String      -- obj.name attribute (dunder name)
  qualname : String   -- obj.qualname attribute
  module : String     -- obj.module attribute
  typeName : String   -- type(obj).name, e.g. "function" or "method"
  deriving DecidableEq, Repr

/-- Python values appearing as parameter values. -/
inductive PyVal where
  | noneV
  | int (n : Int)
  | str (s : String)
  | func (f : FuncObj)
  | dict (entries : List (PyVal × PyVal))
  | list (elems : List PyVal)
  deriving Repr

/-- Flat attribute lookup: getattr(o, name) over the object's own attribute
dictionary, as performed by hasattr/getattr with a single name string. -/
def objAttr (o : PyObj) (name : String) : Option PyObj :=
  (o.attrs.find? (fun a => a.1 == name)).map (fun a => a.2)

/-- Dotted-path traversal getattr(getattr(o, "a"), "b")...: what WOULD be
needed to actually retrieve a class-nested function from its module. -/
def getattrPath (o : PyObj) : List String → Option PyObj
  | [] => some o
  | n :: rest =>
    match objAttr o n with
    | some o2 => getattrPath o2 rest
    | Option.none => Option.none

/-- Is pat a prefix of l (character lists). -/
def listPre : List Char → List Char → Bool
  | [], _ => true
  | _ :: _, [] => false
  | a :: as, b :: bs => a == b && listPre as bs

/-- Does l contain pat as a contiguous sublist. -/
def listSub (pat : List Char) : List Char → Bool
  | [] => listPre pat []
  | c :: cs => listPre pat (c :: cs) || listSub pat cs

/-- Python substring test: pat in s. -/
def strContainsSub (s pat : String) : Bool :=
  listSub pat.data s.data

/-- Lexicographic order on character lists by code point: how Python
compares strings. -/
def charListLtB : List Char → List Char → Bool
  | [], [] => false
  | [], _ :: _ => true
  | _ :: _, [] => false
  | a :: as, b :: bs => if a = b then charListLtB as bs else decide (a < b)

/-- Python string comparison s < t. -/
def strLtB (s t : String) : Bool :=
  charListLtB s.data t.data

mutual
/-- Python equality (the == used by list comparison): structural on scalars
and containers, identity on functions.  (Python dict equality is
order-insensitive; it is modeled structurally here because no canonicalized
code path compares two dicts for equality.) -/
def pyEqB : PyVal → PyVal → Bool
  | .noneV, .noneV => true
  | .int a, .int b => a == b
  | .str a, .str b => a == b
  | .func f, .func g => f.fid == g.fid
  | .dict a, .dict b => pyEqEntries a b
  | .list a, .list b => pyEqList a b
  | _, _ => false

def pyEqList : List PyVal → List PyVal → Bool
  | [], [] => true
  | a :: as, b :: bs => pyEqB a b && pyEqList as bs
  | _, _ => false

def pyEqEntries : List (PyVal × PyVal) → List (PyVal × PyVal) → Bool
  | [], [] => true
  | a :: as, b :: bs => pyEqB a.1 b.1 && pyEqB a.2 b.2 && pyEqEntries as bs
  | _, _ => false
end

mutual
/-- Python a < b: defined within int, within str, lexicographically between
lists; every other combination raises TypeError (modeled as Option.none). -/
def pyLt : PyVal → PyVal → Option Bool
  | .int a, .int b => some (decide (a < b))
  | .str a, .str b => some (strLtB a b)
  | .list a, .list b => pyLtList a b
  | _, _ => Option.none

def pyLtList : List PyVal → List PyVal → Option Bool
  | [], [] => some false
  | [], _ :: _ => some true
  | _ :: _, [] => some false
  | a :: as, b :: bs =>
    if pyEqB a b then pyLtList as bs else pyLt a b
end

/-- Python tuple comparison (k1, v1) < (k2, v2) as performed when sorting
dict items: first differing component decides. -/
def cmpItems (a b : PyVal × PyVal) : Option Bool :=
  if pyEqB a.1 b.1 then
    if pyEqB a.2 b.2 then some false else pyLt a.2 b.2
  else pyLt a.1 b.1

/-- Hexadecimal rendering of an object id, as in CPython's default repr. -/
def hexOfNat (n : Nat) : String :=
  String.mk (Nat.toDigits 16 n)

mutual
/-- Python repr() of a value: the default, insertion-ordered textual form.
The default repr of a function exposes its memory address (its id), which is
exactly what makes it unreproducible across runs. -/
def pyRepr : PyVal → String
  | .noneV => "None"
  | .int n => toString n
  | .str s => "'" ++ s ++ "'"
  | .func f => "<" ++ f.typeName ++ " " ++ f.qualname ++ " at 0x" ++ hexOfNat f.fid ++ ">"
  | .dict es => "\x7b" ++ pyReprEntries es ++ "\x7d"
  | .list xs => "[" ++ pyReprItems xs ++ "]"

def pyReprEntries : List (PyVal × PyVal) → String
  | [] => ""
  | [(k, v)] => pyRepr k ++ ": " ++ pyRepr v
  | (k, v) :: e :: rest => pyRepr k ++ ": " ++ pyRepr v ++ ", " ++ pyReprEntries (e :: rest)

def pyReprItems : List PyVal → String
  | [] => ""
  | [x] => pyRepr x
  | x :: y :: rest => pyRepr x ++ ", " ++ pyReprItems (y :: rest)
end

/-- Python str() of a value: the string itself for strings, repr otherwise
(for the built-in types modeled here). -/
def pyStr : PyVal → String
  | .str s => s
  | v => pyRepr v

/-- The ValueError raised by cleanstr for anonymous functions. -/
def lambdaErr : PyError :=
  .valueError "Cannot use lambda functions in this context"

/-- The ImportError built by cleanstr for a non-importable function. -/
def importErr (f : FuncObj) : PyError :=
  .importError ("Other modules must be able to import stored functions and modules:"
    ++ "function named " ++ f.qualname ++ " stored in " ++ f.module)

/-- cleanstr (source lines 476-503): validates function values and renders
them without their memory address; quotes strings; defers to str() for
everything else. -/
def cleanstr (env : Env) : PyVal → Except PyError String
  | .func f =>
    if f.fname == "<lambda>" then .error lambdaErr
    else if f.module == "__main__" then .error (importErr f)
    else if strContainsSub f.qualname "<locals>" then .error (importErr f)
    else
      match (env.modules.find? (fun m => m.1 == f.module)).map (fun m => m.2) with
      | Option.none => .error (importErr f)
      | some mod =>
        match objAttr mod f.qualname with
        | Option.none => .error (importErr f)
        | some o =>
          if o.oid != f.fid then .error (importErr f)
          else .ok ("<" ++ f.typeName ++ " " ++ f.module ++ "." ++ f.qualname ++ ">")
  | .str s => .ok ("'" ++ s ++ "'")
  | v => .ok (pyStr v)

/-- Is this value usable as keyword-argument key, i.e. a Python str. -/
def isStrKey : PyVal → Bool
  | .str _ => true
  | _ => false

/-- Python string[:-2]: drop the last two characters (empty result when the
string is shorter), used by both Strict renderers to replace the trailing
separator with the closing delimiter. -/
def strDrop2 (s : String) : String :=
  String.mk s.data.dropLast.dropLast

mutual
/-- Entry loop of StrictlyReproduceableDict.str (source lines 518-527):
keys via cleanstr, values via the shared dispatch, each entry followed by
the two-character separator. -/
def strEntries (env : Env) : List (PyVal × PyVal) → Except PyError String
  | [] => .ok ""
  | (k, v) :: rest =>
    match cleanstr env k with
    | .error e => .error e
    | .ok ks =>
      match strEntryVal env v with
      | .error e => .error e
      | .ok vs =>
        match strEntries env rest with
        | .error e => .error e
        | .ok tail => .ok (ks ++ ": " ++ vs ++ ", " ++ tail)

/-- Value dispatch shared by the dict and list renderers (source lines
522-527 and 537-542): a Mapping value is rendered through
StrictlyReproduceableDict(**v), whose keyword expansion first requires all
keys to be strings (TypeError otherwise); a non-Hashable Collection through
StrictlyReproduceableList; everything else through cleanstr.  There is no
sorting here: nested containers keep their own insertion order. -/
def strEntryVal (env : Env) : PyVal → Except PyError String
  | .dict es =>
    if es.all (fun e => isStrKey e.1) then
      match strEntries env es with
      | .error e => .error e
      | .ok body => .ok (strDrop2 ("\x7b" ++ body) ++ "\x7d")
    else .error (.typeError "keywords must be strings")
  | .list xs =>
    match strItems env xs with
    | .error e => .error e
    | .ok body => .ok (strDrop2 ("[" ++ body) ++ "]")
  | v => cleanstr env v

/-- Item loop of StrictlyReproduceableList.str (source lines 533-542). -/
def strItems (env : Env) : List PyVal → Except PyError String
  | [] => .ok ""
  | x :: rest =>
    match strEntryVal env x with
    | .error e => .error e
    | .ok s =>
      match strItems env rest with
      | .error e => .error e
      | .ok tail => .ok (s ++ ", " ++ tail)
end

/-- StrictlyReproduceableDict.str (source lines 518-530): the rendered
entries with the trailing separator replaced by the closing brace; on an
empty dict the two-character strip also consumes the opening brace. -/
def strDict (env : Env) (es : List (PyVal × PyVal)) : Except PyError String :=
  match strEntries env es with
  | .error e => .error e
  | .ok body => .ok (strDrop2 ("\x7b" ++ body) ++ "\x7d")

/-- StrictlyReproduceableList.str (source lines 533-545). -/
def strList (env : Env) (xs : List PyVal) : Except PyError String :=
  match strItems env xs with
  | .error e => .error e
  | .ok body => .ok (strDrop2 ("[" ++ body) ++ "]")

/-- The recursive canonical renderer applied to a standalone value: the
Strict classes for containers, cleanstr for leaves. -/
def strVal (env : Env) : PyVal → Except PyError String
  | .dict es => strDict env es
  | .list xs => strList env xs
  | v => cleanstr env v

section GenericSort

variable {α : Type}

/-- Insert x into an already-sorted run, walking right while NOT (x < y):
the comparison pattern of Python's stable ascending sort (new element
compared against sorted elements, placed after equals). -/
def pinsert (lt : α → α → Bool) (x : α) : List α → List α
  | [] => [x]
  | y :: ys => if lt x y then x :: y :: ys else y :: pinsert lt x ys

/-- Pure stable insertion sort, processing the list left to right. -/
def psort (lt : α → α → Bool) (l : List α) : List α :=
  l.foldl (fun acc x => pinsert lt x acc) []

/-- Fallible insertion: raises TypeError as soon as a comparison between
elements is unsupported, as CPython's sort does. -/
def insertE (cmp : α → α → Option Bool) (x : α) : List α → Except PyError (List α)
  | [] => .ok [x]
  | y :: ys =>
    match cmp x y with
    | Option.none => .error (.typeError "'<' not supported between instances")
    | some true => .ok (x :: y :: ys)
    | some false => do
      let tail ← insertE cmp x ys
      .ok (y :: tail)

/-- Model of Python sorted(): left-to-right stable insertion sort in the
error monad. -/
def sortE (cmp : α → α → Option Bool) (l : List α) : Except PyError (List α) :=
  l.foldlM (fun acc x => insertE cmp x acc) []

end GenericSort

/-- The order-normalized value computed by verify-variant-name before it is
turned into a string. -/
inductive Normalized where
  | strictDict (entries : List (PyVal × PyVal))
  | strictList (elems : List PyVal)
  | plain (v : PyVal)

/-- Source lines 182-190: a Mapping is replaced by a
StrictlyReproduceableDict over its items sorted by key (a TypeError from
this sorted() call is NOT caught); a non-string Collection is replaced by a
StrictlyReproduceableList of its sorted elements, falling back to the
original, untouched value if sorted() raises; anything else is used as is. -/
def normalizeVals (v : PyVal) : Except PyError Normalized :=
  match v with
  | .dict es =>
    match sortE cmpItems es with
    | .ok es2 => .ok (.strictDict es2)
    | .error e => .error e
  | .list xs =>
    match sortE pyLt xs with
    | .ok xs2 => .ok (.strictList xs2)
    | .error _ => .ok (.plain (.list xs))
  | w => .ok (.plain w)

/-- str(vals) as evaluated at the use sites in verify-variant-name: the
Strict renderers for the normalized containers, the DEFAULT str() for the
plain fallback. -/
def strNormalized (env : Env) : Normalized → Except PyError String
  | .strictDict es => strDict env es
  | .strictList xs => strList env xs
  | .plain v => .ok (pyStr v)

/-- The canonical string of a parameter value: normalization followed by
stringification, the composite performed by verify-variant-name. -/
def canonicalizeVals (env : Env) (v : PyVal) : Except PyError String :=
  match normalizeVals v with
  | .error e => .error e
  | .ok nv => strNormalized env nv

/-- An experimental parameter (the fields canonicalization and identity
depend on; the modules field only affects value transport). -/
structure Param where
  id_name : String
  arg_name : String
  vals : PyVal

/-- The Variant-Conflict message of source lines 197-201, interpolating the
argument name, the variant id, the stored string and the attempted one. -/
def conflictMsg (trial_db : String) (p : Param) (stored attempted : String) : String :=
  "Parameter '" ++ p.arg_name ++ "' variant '" ++ p.id_name
    ++ "' is stored with different values in " ++ trial_db ++ ", table 'variant_"
    ++ p.arg_name ++ "'. (Stored: " ++ stored ++ "), attmpeted: " ++ attempted ++ "."

/-- verify-variant-name (source lines 172-202) acting on the rows of the
per-argument variant table (name, params): normalize the value; if no row
has this variant id, insert (id, str(vals)); if the stored string differs
from str(vals), raise RuntimeError; otherwise change nothing. -/
def verifyVariantName (env : Env) (trial_db : String)
    (table : List (String × String)) (p : Param) :
    Except PyError (List (String × String)) :=
  match normalizeVals p.vals with
  | .error e => .error e
  | .ok nv =>
    match table.find? (fun row => row.1 == p.id_name) with
    | Option.none =>
      match strNormalized env nv with
      | .error e => .error e
      | .ok s => .ok (table ++ [(p.id_name, s)])
    | some row =>
      match strNormalized env nv with
      | .error e => .error e
      | .ok s =>
        if row.2 != s then .error (.runtimeError (conflictMsg trial_db p row.2 s))
        else .ok table

/-- The master variant key (source lines 279-283): pairs (arg name, id name)
in parameter order, stably sorted by argument name, id names joined by the
dash delimiter. -/
def masterVariant (params : List Param) : String :=
  let pairs := params.map (fun p => (p.arg_name, p.id_name))
  String.intercalate "-" ((psort (fun a b => strLtB a.1 b.1) pairs).map (fun x => x.2))

/-- One row of the trials table.  The variant, iteration and commit columns
are written on insert; cpu_time, results and filename are outcome columns,
null until the closing update (filename is the string "None" already at
insert time, because the insert log message carries the literal text None
in that field and the handler's emptiness test does not filter it). -/
structure TrialRow where
  variant : String
  iteration : Int
  commit : String
  cpu_time : Option String
  results : Option String
  filename : Option String
  deriving DecidableEq, Repr

/-- Fold computing the maximum of a nonempty collection of Ints, as
pandas max does over the iteration column. -/
def maxIntList (x : Int) (xs : List Int) : Int :=
  xs.foldl max x

/-- id-variant-iteration (source lines 205-226): 1 if no trial row carries
this master variant key, otherwise the maximum recorded iteration plus 1. -/
def idVariantIteration (trials : List TrialRow) (master : String) : Int :=
  match trials.filter (fun r => r.variant == master) with
  | [] => 1
  | r :: rs => maxIntList r.iteration (rs.map (fun t => t.iteration)) + 1

/-- The row inserted by the opening trial entry log message (source lines
302-310): outcome columns empty in the message and hence not set, except
filename which the message spells as the text None. -/
def openTrialRow (variant : String) (iteration : Int) (commit : String) : TrialRow :=
  { variant := variant, iteration := iteration, commit := commit,
    cpu_time := Option.none, results := Option.none, filename := some "None" }

/-- The closing trial entry update (source lines 350-358) as applied by the
DBHandler: rows are matched on the primary-key columns (variant, iteration);
each non-key column is set only when the corresponding message field is a
non-empty string. -/
def applyTrialUpdate (trials : List TrialRow) (variant : String) (iteration : Int)
    (commit cpu results fname : String) : List TrialRow :=
  trials.map (fun r =>
    if r.variant == variant && r.iteration == iteration then
      { r with
        commit := if commit != "" then commit else r.commit,
        cpu_time := if cpu != "" then some cpu else r.cpu_time,
        results := if results != "" then some results else r.results,
        filename := if fname != "" then some fname else r.filename }
    else r)

/-- Ledgers producible by the trial-record lifecycle: starting empty, rows
are only ever opened at the iteration computed by id-variant-iteration, and
closed by the key-preserving update. -/
inductive ReachableLedger : List TrialRow → Prop where
  | nil : ReachableLedger []
  | openStep (db : List TrialRow) (key commit : String) :
      ReachableLedger db →
      ReachableLedger (db ++ [openTrialRow key (idVariantIteration db key) commit])
  | closeStep (db : List TrialRow) (key : String) (iter : Int)
      (commit cpu results fname : String) :
      ReachableLedger db →
      ReachableLedger (applyTrialUpdate db key iter commit cpu results fname)

/-- The per-argument variant tables of the trial database, keyed by argument
name. -/
abbrev VariantTables : Type := List (String × List (String × String))

def getVariantTable (ts : VariantTables) (arg : String) : List (String × String) :=
  match ts.find? (fun t => t.1 == arg) with
  | some t => t.2
  | Option.none => []

def setVariantTable (ts : VariantTables) (arg : String)
    (rows : List (String × String)) : VariantTables :=
  match ts.find? (fun t => t.1 == arg) with
  | some _ => ts.map (fun t => if t.1 == arg then (t.1, rows) else t)
  | Option.none => ts ++ [(arg, rows)]

/-- init-variant-table (source lines 162-169): create the per-argument table
if it does not exist yet (no rows). -/
def initVariantTable (ts : VariantTables) (arg : String) : VariantTables :=
  match ts.find? (fun t => t.1 == arg) with
  | some _ => ts
  | Option.none => ts ++ [(arg, [])]

/-- The registration loop of run (source lines 274-278): each tracked
parameter gets its variant table created and its variant name verified; the
first raised exception aborts the loop, keeping the tables mutated so far. -/
def registerParams (env : Env) (trial_db : String) (ts : VariantTables) :
    List Param → List String → VariantTables × Option PyError
  | [], _ => (ts, Option.none)
  | p :: ps, untracked =>
    if untracked.contains p.arg_name then registerParams env trial_db ts ps untracked
    else
      let ts1 := initVariantTable ts p.arg_name
      match verifyVariantName env trial_db (getVariantTable ts1 p.arg_name) p with
      | .error e => (ts1, some e)
      | .ok rows => registerParams env trial_db (setVariantTable ts1 p.arg_name rows) ps untracked

/-- Outcome of the isolated execution (run-in-notebook, source lines
363-443): the captured CellExecutionError if the experiment code raised, and
the str() of the recovered metrics (the text None when nothing could be
parsed). -/
structure ExecOutcome where
  exc : Option String
  metrics : String

/-- The database state the orchestrator mutates: variant tables plus the
trials table. -/
structure RunState where
  variantTables : VariantTables
  trials : List TrialRow
  deriving Repr

/-- The output filename for the default html exporter with no group. -/
def trialFilename (exName master : String) (iteration : Int) : String :=
  "trial_" ++ exName ++ "_" ++ master ++ "_" ++ toString iteration ++ ".html"

/-- The non-debug path of run (source lines 229-360) restricted to its
database effects, for the default group=None / html output configuration:
register every tracked parameter (aborting on the first identity error,
before any trial row exists), build the master variant key, compute the next
iteration, open the trial row, execute (outcome supplied as data), close the
row with cpu time, metrics and filename, and finally re-raise the captured
execution error if there was one. -/
def runModel (env : Env) (trial_db exName commit : String) (untracked : List String)
    (params : List Param) (outcome : ExecOutcome) (cpuTime : String)
    (st : RunState) : RunState × Option PyError :=
  match registerParams env trial_db st.variantTables params untracked with
  | (ts1, some e) => ({ st with variantTables := ts1 }, some e)
  | (ts1, Option.none) =>
    let master := masterVariant params
    let iteration := idVariantIteration st.trials master
    let fname := trialFilename exName master iteration
    let trials1 := st.trials ++ [openTrialRow master iteration commit]
    let trials2 := applyTrialUpdate trials1 master iteration commit cpuTime outcome.metrics fname
    ({ variantTables := ts1, trials := trials2 },
      outcome.exc.map (fun m => PyError.cellExecutionError m))

/-- The value contains the function object somewhere a Strict renderer will
reach it: at the top, as a (hashable) dict key, inside a dict value, or
inside a list element. -/
inductive ContainsFunc : PyVal → FuncObj → Prop where
  | self (f : FuncObj) : ContainsFunc (.func f) f
  | dictKey (es : List (PyVal × PyVal)) (f : FuncObj) (v : PyVal) :
      (PyVal.func f, v) ∈ es → ContainsFunc (.dict es) f
  | dictVal (es : List (PyVal × PyVal)) (f : FuncObj) (k v : PyVal) :
      (k, v) ∈ es → ContainsFunc v f → ContainsFunc (.dict es) f
  | listElem (xs : List PyVal) (f : FuncObj) (x : PyVal) :
      x ∈ xs → ContainsFunc x f → ContainsFunc (.list xs) f

/-- Case (a) of the Unreproducible-Value taxonomy: anonymous function. -/
def isLambdaF (f : FuncObj) : Prop := f.fname = "<lambda>"

/-- Cases (b)-(e): declared in the interactive entry point, defined in a
local scope, declaring module not loaded, or qualified name not resolving
back to the identical object in the declaring module. -/
def isUnimportableF (env : Env) (f : FuncObj) : Prop :=
  f.module = "__main__"
  ∨ strContainsSub f.qualname "<locals>" = true
  ∨ (env.modules.find? (fun m => m.1 == f.module)) = Option.none
  ∨ (∀ nm mod, (env.modules.find? (fun m => m.1 == f.module)) = some (nm, mod) →
      objAttr mod f.qualname = Option.none
      ∨ (∃ o, objAttr mod f.qualname = some o ∧ o.oid ≠ f.fid))

/-- A function value cleanstr must reject. -/
def badFunc (env : Env) (f : FuncObj) : Prop :=
  isLambdaF f ∨ isUnimportableF env f

/-- Split a character list on a separator, Python str.split semantics. -/
def splitCharList (sep : Char) : List Char → List (List Char)
  | [] => [[]]
  | c :: cs =>
    let r := splitCharList sep cs
    if c = sep then [] :: r
    else
      match r with
      | [] => [[c]]
      | h :: t => (c :: h) :: t

/-- Python qualname.split of the dotted path components. -/
def splitOnDot (s : String) : List String :=
  (splitCharList '.' s.data).map String.mk

/-- The dotted qualified name genuinely resolves, by path traversal, to the
very object f inside its declaring module. -/
def dottedReachable (env : Env) (f : FuncObj) : Prop :=
  ∃ nm mod, (env.modules.find? (fun m => m.1 == f.module)) = some (nm, mod)
    ∧ ∃ o, getattrPath mod (splitOnDot f.qualname) = some o ∧ o.oid = f.fid

/-! ### Order-theoretic facts about the modeled string comparison -/

theorem charListLtB_asymm : ∀ {a b : List Char},
    charListLtB a b = true → charListLtB b a = false
  | [], [], h => by simp [charListLtB] at h
  | [], _ :: _, _ => by simp [charListLtB]
  | _ :: _, [], h => by simp [charListLtB] at h
  | x :: xs, y :: ys, h => by
    simp only [charListLtB] at h ⊢
    by_cases hxy : x = y
    · subst hxy
      simp only [if_pos rfl] at h ⊢
      exact charListLtB_asymm h
    · rw [if_neg hxy] at h
      rw [if_neg (fun he => hxy he.symm)]
      simp only [decide_eq_true_eq] at h
      simpa using lt_asymm h

theorem charListLtB_trans : ∀ {a b c : List Char},
    charListLtB a b = true → charListLtB b c = true → charListLtB a c = true
  | [], [], _, h, _ => by simp [charListLtB] at h
  | [], _ :: _, [], _, h2 => by simp [charListLtB] at h2
  | [], _ :: _, _ :: _, _, _ => by simp [charListLtB]
  | _ :: _, [], _, h, _ => by simp [charListLtB] at h
  | _ :: _, _ :: _, [], _, h2 => by simp [charListLtB] at h2
  | x :: xs, y :: ys, z :: zs, h1, h2 => by
    simp only [charListLtB] at h1 h2 ⊢
    by_cases hxy : x = y
    · subst hxy
      rw [if_pos rfl] at h1
      by_cases hyz : x = z
      · subst hyz
        rw [if_pos rfl] at h2 ⊢
        exact charListLtB_trans h1 h2
      · rwa [if_neg hyz] at h2 ⊢
    · rw [if_neg hxy] at h1
      simp only [decide_eq_true_eq] at h1
      by_cases hyz : y = z
      · subst hyz
        rw [if_neg hxy]
        simpa using h1
      · rw [if_neg hyz] at h2
        simp only [decide_eq_true_eq] at h2
        have hxz : x < z := lt_trans h1 h2
        rw [if_neg (ne_of_lt hxz)]
        simpa using hxz

theorem charListLtB_eq_of_not : ∀ {a b : List Char},
    charListLtB a b = false → charListLtB b a = false → a = b
  | [], [], _, _ => rfl
  | [], _ :: _, h, _ => by simp [charListLtB] at h
  | _ :: _, [], _, h2 => by simp [charListLtB] at h2
  | x :: xs, y :: ys, h1, h2 => by
    simp only [charListLtB] at h1 h2
    by_cases hxy : x = y
    · subst hxy
      rw [if_pos rfl] at h1
      rw [if_pos rfl] at h2
      rw [charListLtB_eq_of_not h1 h2]
    · rw [if_neg hxy] at h1
      rw [if_neg (fun he => hxy he.symm)] at h2
      simp only [decide_eq_false_iff_not] at h1 h2
      exact absurd (lt_trichotomy x y) (by simp [hxy, h1, h2])

theorem strLtB_asymm {s t : String} (h : strLtB s t = true) : strLtB t s = false :=
  charListLtB_asymm h

theorem strLtB_trans {s t u : String} (h1 : strLtB s t = true)
    (h2 : strLtB t u = true) : strLtB s u = true :=
  charListLtB_trans h1 h2

theorem strLtB_eq_of_not {s t : String} (h1 : strLtB s t = false)
    (h2 : strLtB t s = false) : s = t := by
  cases s with
  | mk d1 =>
    cases t with
    | mk d2 =>
      have : d1 = d2 := charListLtB_eq_of_not h1 h2
      rw [this]

/-! ### Generic facts about the insertion-sort model -/

section GenericSortFacts

variable {α : Type}

theorem pinsert_perm (lt : α → α → Bool) (x : α) :
    ∀ l : List α, (pinsert lt x l).Perm (x :: l)
  | [] => List.Perm.refl _
  | y :: ys => by
    simp only [pinsert]
    by_cases h : lt x y = true
    · rw [if_pos h]
    · rw [if_neg h]
      exact ((pinsert_perm lt x ys).cons y).trans (List.Perm.swap x y ys)

theorem mem_pinsert (lt : α → α → Bool) (x z : α) (l : List α) :
    z ∈ pinsert lt x l ↔ z = x ∨ z ∈ l := by
  rw [(pinsert_perm lt x l).mem_iff]
  simp

theorem psort_perm_aux (lt : α → α → Bool) :
    ∀ (l acc : List α), (l.foldl (fun a x => pinsert lt x a) acc).Perm (acc ++ l)
  | [], acc => by simp
  | x :: xs, acc => by
    simp only [List.foldl_cons]
    refine (psort_perm_aux lt xs (pinsert lt x acc)).trans ?h
    have h1 : (pinsert lt x acc ++ xs).Perm ((x :: acc) ++ xs) :=
      (pinsert_perm lt x acc).append_right xs
    refine h1.trans ?h2
    have h2 : (acc ++ x :: xs).Perm (x :: (acc ++ xs)) := List.perm_middle
    simpa using h2.symm

theorem psort_perm (lt : α → α → Bool) (l : List α) : (psort lt l).Perm l := by
  simpa using psort_perm_aux lt l []

theorem pinsert_pairwise (lt : α → α → Bool)
    (hasym : ∀ a b, lt a b = true → lt b a = false)
    (htrans : ∀ a b c, lt a b = true → lt b c = true → lt a c = true)
    (x : α) : ∀ {l : List α}, l.Pairwise (fun a b => lt b a = false) →
    (pinsert lt x l).Pairwise (fun a b => lt b a = false)
  | [], _ => by simp [pinsert]
  | y :: ys, hp => by
    rcases List.pairwise_cons.mp hp with ⟨hy, hys⟩
    simp only [pinsert]
    by_cases h : lt x y = true
    · rw [if_pos h]
      refine List.pairwise_cons.mpr ⟨?f1, hp⟩
      intro z hz
      rcases List.mem_cons.mp hz with rfl | hzys
      · exact hasym _ _ h
      · rcases Bool.eq_false_or_eq_true (lt z x) with ht | hf
        · exact absurd (htrans _ _ _ ht h) (by simp [hy z hzys])
        · exact hf
    · rw [if_neg h]
      refine List.pairwise_cons.mpr ⟨?f2, pinsert_pairwise lt hasym htrans x hys⟩
      intro z hz
      rcases (mem_pinsert lt x z ys).mp hz with rfl | hzys
      · exact Bool.not_eq_true _ ▸ h
      · exact hy z hzys

theorem psort_pairwise_aux (lt : α → α → Bool)
    (hasym : ∀ a b, lt a b = true → lt b a = false)
    (htrans : ∀ a b c, lt a b = true → lt b c = true → lt a c = true) :
    ∀ (l acc : List α), acc.Pairwise (fun a b => lt b a = false) →
    (l.foldl (fun a x => pinsert lt x a) acc).Pairwise (fun a b => lt b a = false)
  | [], _, hp => hp
  | x :: xs, acc, hp => by
    simp only [List.foldl_cons]
    exact psort_pairwise_aux lt hasym htrans xs _ (pinsert_pairwise lt hasym htrans x hp)

theorem psort_pairwise (lt : α → α → Bool)
    (hasym : ∀ a b, lt a b = true → lt b a = false)
    (htrans : ∀ a b c, lt a b = true → lt b c = true → lt a c = true)
    (l : List α) :
    (psort lt l).Pairwise (fun a b => lt b a = false) :=
  psort_pairwise_aux lt hasym htrans l [] (by simp)

theorem pinsert_congr (lt1 lt2 : α → α → Bool) (x : α) :
    ∀ {l : List α}, (∀ y ∈ l, lt1 x y = lt2 x y) →
    pinsert lt1 x l = pinsert lt2 x l
  | [], _ => rfl
  | y :: ys, hagree => by
    simp only [pinsert]
    rw [hagree y (by simp)]
    by_cases h : lt2 x y = true
    · rw [if_pos h, if_pos h]
    · rw [if_neg h, if_neg h,
        pinsert_congr lt1 lt2 x (fun z hz => hagree z (by simp [hz]))]

theorem psort_congr_aux (lt1 lt2 : α → α → Bool) :
    ∀ (l acc : List α), l.Nodup → (∀ a ∈ l, a ∉ acc) →
    (∀ a ∈ l, ∀ b ∈ l, a ≠ b → lt1 a b = lt2 a b) →
    (∀ a ∈ l, ∀ b ∈ acc, lt1 a b = lt2 a b) →
    l.foldl (fun a x => pinsert lt1 x a) acc = l.foldl (fun a x => pinsert lt2 x a) acc
  | [], _, _, _, _, _ => rfl
  | x :: xs, acc, hnd, hdis, hl, hacc => by
    rcases List.nodup_cons.mp hnd with ⟨hxnot, hndxs⟩
    simp only [List.foldl_cons]
    rw [pinsert_congr lt1 lt2 x (fun y hy => hacc x (by simp) y hy)]
    refine psort_congr_aux lt1 lt2 xs (pinsert lt2 x acc) hndxs ?e1 ?e2 ?e3
    · intro a ha hmem
      rcases (mem_pinsert lt2 x a acc).mp hmem with rfl | hin
      · exact hxnot ha
      · exact hdis a (by simp [ha]) hin
    · intro a ha b hb hab
      exact hl a (by simp [ha]) b (by simp [hb]) hab
    · intro a ha b hb
      rcases (mem_pinsert lt2 x b acc).mp hb with rfl | hin
      · exact hl a (by simp [ha]) b (by simp) (fun he => hxnot (he ▸ ha))
      · exact hacc a (by simp [ha]) b hin

theorem psort_congr (lt1 lt2 : α → α → Bool) (l : List α) (hnd : l.Nodup)
    (hagree : ∀ a ∈ l, ∀ b ∈ l, a ≠ b → lt1 a b = lt2 a b) :
    psort lt1 l = psort lt2 l :=
  psort_congr_aux lt1 lt2 l [] hnd (by simp) hagree (by simp)

theorem insertE_ok (cmp : α → α → Option Bool) (x : α) :
    ∀ {l : List α}, (∀ y ∈ l, (cmp x y).isSome) →
    insertE cmp x l = .ok (pinsert (fun a b => (cmp a b).getD false) x l)
  | [], _ => rfl
  | y :: ys, hcomp => by
    have hy : (cmp x y).isSome := hcomp y (by simp)
    rcases Option.isSome_iff_exists.mp hy with ⟨t, ht⟩
    simp only [insertE, pinsert, ht, Option.getD_some]
    cases t with
    | true => simp
    | false =>
      simp only [Bool.false_eq_true, if_false]
      rw [insertE_ok cmp x (fun z hz => hcomp z (by simp [hz]))]
      rfl

theorem sortE_ok_aux (cmp : α → α → Option Bool) :
    ∀ (l acc : List α), l.Nodup → (∀ a ∈ l, a ∉ acc) →
    (∀ a ∈ l, ∀ b ∈ l, a ≠ b → (cmp a b).isSome) →
    (∀ a ∈ l, ∀ b ∈ acc, (cmp a b).isSome) →
    l.foldlM (fun a x => insertE cmp x a) acc
      = .ok (l.foldl (fun a x => pinsert (fun a b => (cmp a b).getD false) x a) acc)
  | [], _, _, _, _, _ => rfl
  | x :: xs, acc, hnd, hdis, hl, hacc => by
    rcases List.nodup_cons.mp hnd with ⟨hxnot, hndxs⟩
    rw [List.foldlM_cons, insertE_ok cmp x (fun y hy => hacc x (by simp) y hy)]
    simp only [bind, Except.bind, List.foldl_cons]
    refine sortE_ok_aux cmp xs _ hndxs ?g1 ?g2 ?g3
    · intro a ha hmem
      rcases (mem_pinsert _ x a acc).mp hmem with rfl | hin
      · exact hxnot ha
      · exact hdis a (by simp [ha]) hin
    · intro a ha b hb hab
      exact hl a (by simp [ha]) b (by simp [hb]) hab
    · intro a ha b hb
      rcases (mem_pinsert _ x b acc).mp hb with rfl | hin
      · exact hl a (by simp [ha]) b (by simp) (fun he => hxnot (he ▸ ha))
      · exact hacc a (by simp [ha]) b hin

theorem sortE_ok (cmp : α → α → Option Bool) (l : List α) (hnd : l.Nodup)
    (hcomp : ∀ a ∈ l, ∀ b ∈ l, a ≠ b → (cmp a b).isSome) :
    sortE cmp l = .ok (psort (fun a b => (cmp a b).getD false) l) :=
  sortE_ok_aux cmp l [] hnd (by simp) hcomp (by simp)

end GenericSortFacts

/-! ### Sorting by string keys: permutation invariance -/

/-- Generic: a stable insertion sort whose order is pulled back from the
string order along a key is determined by the multiset of elements, whenever
the keys are pairwise distinct. -/
theorem psort_key_unique {α : Type} (lt : α → α → Bool) (key : α → String)
    (hlt : ∀ a b, lt a b = strLtB (key a) (key b))
    (l1 l2 : List α) (hperm : l1.Perm l2) (hnd : (l1.map key).Nodup) :
    psort lt l1 = psort lt l2 := by
  have hasym : ∀ a b, lt a b = true → lt b a = false := by
    intro a b h
    rw [hlt] at h ⊢
    exact strLtB_asymm h
  have htrans : ∀ a b c, lt a b = true → lt b c = true → lt a c = true := by
    intro a b c h1 h2
    rw [hlt] at h1 h2 ⊢
    exact strLtB_trans h1 h2
  have hp1 : (psort lt l1).Pairwise (fun a b => lt b a = false) :=
    psort_pairwise lt hasym htrans l1
  have hp2 : (psort lt l2).Pairwise (fun a b => lt b a = false) :=
    psort_pairwise lt hasym htrans l2
  have hkey1 : l1.Pairwise (fun a b => key a ≠ key b) :=
    List.pairwise_map.mp hnd
  have hsymm : Symmetric (fun a b : α => key a ≠ key b) :=
    fun _ _ h => fun he => h he.symm
  have hk1 : (psort lt l1).Pairwise (fun a b => key a ≠ key b) :=
    ((psort_perm lt l1).pairwise_iff (fun h => hsymm h)).mpr hkey1
  have hk2 : (psort lt l2).Pairwise (fun a b => key a ≠ key b) :=
    ((psort_perm lt l2).pairwise_iff (fun h => hsymm h)).mpr (((hperm.pairwise_iff (fun h => hsymm h)).mp hkey1))
  have hps : (psort lt l1).Perm (psort lt l2) :=
    ((psort_perm lt l1).trans hperm).trans (psort_perm lt l2).symm
  letI : IsAntisymm α (fun a b => lt b a = false ∧ key a ≠ key b) := by
    constructor
    intro a b h1 h2
    rw [hlt] at h1 h2
    exact absurd (strLtB_eq_of_not h2.1 h1.1) h1.2
  exact List.eq_of_perm_of_sorted hps (hp1.and hk1) (hp2.and hk2)

/-- The string key of a dict key that is a Python str. -/
def keyStr : PyVal → String
  | .str s => s
  | _ => ""

/-- Item-tuple comparison on entries with distinct string keys reduces to
string comparison of the keys. -/
theorem cmpItems_str {a b : PyVal × PyVal} {sa sb : String}
    (ha : a.1 = PyVal.str sa) (hb : b.1 = PyVal.str sb) (hne : sa ≠ sb) :
    cmpItems a b = some (strLtB sa sb) := by
  unfold cmpItems
  rw [ha, hb]
  have : pyEqB (PyVal.str sa) (PyVal.str sb) = false := by
    simp [pyEqB]
    exact hne
  rw [this]
  simp [pyLt]

/-- The per-parameter (argument name, variant id) pairs of run line 279-282. -/
def paramPairs (params : List Param) : List (String × String) :=
  params.map (fun p => (p.arg_name, p.id_name))

theorem masterVariant_perm (ps1 ps2 : List Param) (hperm : ps1.Perm ps2)
    (hnd : (ps1.map (fun p => p.arg_name)).Nodup) :
    masterVariant ps1 = masterVariant ps2 := by
  unfold masterVariant
  have hkey : (paramPairs ps1).map Prod.fst = ps1.map (fun p => p.arg_name) := by
    simp [paramPairs]
  have h := psort_key_unique (fun a b => strLtB a.1 b.1) Prod.fst (fun _ _ => rfl)
    (paramPairs ps1) (paramPairs ps2) (hperm.map _) (by rw [hkey]; exact hnd)
  simpa [paramPairs] using congrArg (fun l => String.intercalate "-" (l.map (fun x => x.2))) h

theorem isStrKey_ex {v : PyVal} (h : isStrKey v = true) : ∃ s, v = PyVal.str s := by
  cases v <;> simp [isStrKey] at h ⊢

/-- Entry order pulled back from the string order along the key. -/
def ltStrKey (a b : PyVal × PyVal) : Bool :=
  strLtB (keyStr a.1) (keyStr b.1)

/-- Sorting the items of a dict whose keys are pairwise distinct strings
succeeds and equals the key-ordered insertion sort. -/
theorem sortEntries_str (es : List (PyVal × PyVal))
    (hstr : ∀ e ∈ es, isStrKey e.1 = true)
    (hnd : (es.map (fun e => keyStr e.1)).Nodup) :
    sortE cmpItems es = .ok (psort ltStrKey es) := by
  have hinj := List.inj_on_of_nodup_map hnd
  have hesnd : es.Nodup := hnd.of_map
  have hkeyne : ∀ a ∈ es, ∀ b ∈ es, a ≠ b →
      ∃ sa sb, a.1 = PyVal.str sa ∧ b.1 = PyVal.str sb ∧ sa ≠ sb := by
    intro a ha b hb hab
    rcases isStrKey_ex (hstr a ha) with ⟨sa, hsa⟩
    rcases isStrKey_ex (hstr b hb) with ⟨sb, hsb⟩
    refine ⟨sa, sb, hsa, hsb, ?ne⟩
    intro he
    exact hab (hinj ha hb (by rw [hsa, hsb, he]))
  have hcomp : ∀ a ∈ es, ∀ b ∈ es, a ≠ b → (cmpItems a b).isSome := by
    intro a ha b hb hab
    rcases hkeyne a ha b hb hab with ⟨sa, sb, hsa, hsb, hne⟩
    rw [cmpItems_str hsa hsb hne]
    rfl
  rw [sortE_ok cmpItems es hesnd hcomp]
  rw [psort_congr _ ltStrKey es hesnd]
  intro a ha b hb hab
  rcases hkeyne a ha b hb hab with ⟨sa, sb, hsa, hsb, hne⟩
  rw [cmpItems_str hsa hsb hne]
  simp [ltStrKey, hsa, hsb, keyStr]

/-- Canonicalization of a mapping with distinct string keys is invariant
under permutation of its (top-level) entries. -/
theorem dictCanon_perm (env : Env) (es1 es2 : List (PyVal × PyVal))
    (hstr : ∀ e ∈ es1, isStrKey e.1 = true)
    (hnd : (es1.map (fun e => keyStr e.1)).Nodup)
    (hperm : es1.Perm es2) :
    canonicalizeVals env (PyVal.dict es1) = canonicalizeVals env (PyVal.dict es2) := by
  have hstr2 : ∀ e ∈ es2, isStrKey e.1 = true :=
    fun e he => hstr e (hperm.mem_iff.mpr he)
  have hnd2 : (es2.map (fun e => keyStr e.1)).Nodup :=
    ((hperm.map _).nodup_iff).mp hnd
  have h1 := sortEntries_str es1 hstr hnd
  have h2 := sortEntries_str es2 hstr2 hnd2
  have hsorted : psort ltStrKey es1 = psort ltStrKey es2 :=
    psort_key_unique ltStrKey (fun e => keyStr e.1) (fun _ _ => rfl) es1 es2 hperm hnd
  simp only [canonicalizeVals, normalizeVals]
  rw [h1, h2, hsorted]

/-! ### cleanstr rejection behavior -/

theorem cleanstr_lambda (env : Env) (f : FuncObj) (h : isLambdaF f) :
    cleanstr env (PyVal.func f) = .error lambdaErr := by
  unfold isLambdaF at h
  simp [cleanstr, h]

theorem cleanstr_unimportable (env : Env) (f : FuncObj)
    (hnl : ¬ isLambdaF f) (h : isUnimportableF env f) :
    cleanstr env (PyVal.func f) = .error (importErr f) := by
  unfold isLambdaF at hnl
  have hb : (f.fname == "<lambda>") = false := by simpa using hnl
  by_cases hm : f.module = "__main__"
  · simp [cleanstr, hb, hm]
  · have hmB : (f.module == "__main__") = false := by simpa using hm
    by_cases hloc : strContainsSub f.qualname "<locals>" = true
    · simp [cleanstr, hb, hmB, hloc]
    · have hlocB : strContainsSub f.qualname "<locals>" = false := by
        simpa using hloc
      rcases h with hm2 | hloc2 | hfind | h4
      · exact absurd hm2 hm
      · exact absurd hloc2 hloc
      · simp [cleanstr, hb, hmB, hlocB, hfind]
      · cases hfind : env.modules.find? (fun m => m.1 == f.module) with
        | none => simp [cleanstr, hb, hmB, hlocB, hfind]
        | some nmmod =>
          obtain ⟨nm, mod⟩ := nmmod
          rcases h4 nm mod hfind with hnone | ⟨o, ho, hne⟩
          · simp [cleanstr, hb, hmB, hlocB, hfind, hnone]
          · have hneB : (o.oid != f.fid) = true := by simpa using hne
            simp [cleanstr, hb, hmB, hlocB, hfind, ho, hneB]

theorem cleanstr_bad (env : Env) (f : FuncObj) (h : badFunc env f) :
    ∃ e, cleanstr env (PyVal.func f) = .error e := by
  by_cases hl : isLambdaF f
  · exact ⟨_, cleanstr_lambda env f hl⟩
  · rcases h with hl2 | hu
    · exact absurd hl2 hl
    · exact ⟨_, cleanstr_unimportable env f hl hu⟩

/-! ### Error propagation through the Strict renderers -/

theorem strEntries_ok_mem {env : Env} : ∀ {es : List (PyVal × PyVal)} {s : String},
    strEntries env es = .ok s → ∀ kv ∈ es,
      (∃ ks, cleanstr env kv.1 = .ok ks) ∧ ∃ vs, strEntryVal env kv.2 = .ok vs
  | [], _, _ => by simp
  | (k, v) :: rest, s, h => by
    intro kv hkv
    simp only [strEntries] at h
    cases hc : cleanstr env k with
    | error e1 => rw [hc] at h; exact absurd h (by simp)
    | ok ks =>
      rw [hc] at h
      cases hv : strEntryVal env v with
      | error e1 => rw [hv] at h; exact absurd h (by simp)
      | ok vs =>
        rw [hv] at h
        cases ht : strEntries env rest with
        | error e1 => rw [ht] at h; exact absurd h (by simp)
        | ok tail =>
          rcases List.mem_cons.mp hkv with rfl | hmem
          · exact ⟨⟨ks, hc⟩, ⟨vs, hv⟩⟩
          · exact strEntries_ok_mem ht kv hmem

theorem strItems_ok_mem {env : Env} : ∀ {xs : List PyVal} {s : String},
    strItems env xs = .ok s → ∀ x ∈ xs, ∃ vs, strEntryVal env x = .ok vs
  | [], _, _ => by simp
  | x :: rest, s, h => by
    intro y hy
    simp only [strItems] at h
    cases hv : strEntryVal env x with
    | error e1 => rw [hv] at h; exact absurd h (by simp)
    | ok vs =>
      rw [hv] at h
      cases ht : strItems env rest with
      | error e1 => rw [ht] at h; exact absurd h (by simp)
      | ok tail =>
        rcases List.mem_cons.mp hy with rfl | hmem
        · exact ⟨vs, hv⟩
        · exact strItems_ok_mem ht y hmem

theorem strEntryVal_error_of_strVal {env : Env} {v : PyVal}
    (h : ∃ e, strVal env v = .error e) : ∃ e, strEntryVal env v = .error e := by
  cases v with
  | dict es =>
    by_cases hk : es.all (fun e => isStrKey e.1) = true
    · rcases h with ⟨e, he⟩
      simp only [strVal, strDict] at he
      refine ⟨e, ?g⟩
      simp only [strEntryVal, hk, if_true]
      exact he
    · exact ⟨PyError.typeError "keywords must be strings", by simp [strEntryVal, hk]⟩
  | list xs => exact h
  | noneV => exact h
  | int n => exact h
  | str s => exact h
  | func f => exact h

theorem strVal_error_of_contains {env : Env} {v : PyVal} {f : FuncObj}
    (hc : ContainsFunc v f) (hb : badFunc env f) : ∃ e, strVal env v = .error e := by
  induction hc with
  | self f => exact cleanstr_bad env f hb
  | dictKey es f v hmem =>
    cases hd : strDict env es with
    | error e => exact ⟨e, by simp only [strVal]; exact hd⟩
    | ok s =>
      simp only [strDict] at hd
      cases hse : strEntries env es with
      | error e => rw [hse] at hd; exact absurd hd (by simp)
      | ok body =>
        rcases (strEntries_ok_mem hse (PyVal.func f, v) hmem).1 with ⟨ks, hks⟩
        rcases cleanstr_bad env f hb with ⟨e, he⟩
        rw [he] at hks
        exact absurd hks (by simp)
  | dictVal es f k v hmem hcf ih =>
    cases hd : strDict env es with
    | error e => exact ⟨e, by simp only [strVal]; exact hd⟩
    | ok s =>
      simp only [strDict] at hd
      cases hse : strEntries env es with
      | error e => rw [hse] at hd; exact absurd hd (by simp)
      | ok body =>
        rcases (strEntries_ok_mem hse (k, v) hmem).2 with ⟨vs, hvs⟩
        rcases strEntryVal_error_of_strVal (ih hb) with ⟨e, he⟩
        rw [he] at hvs
        exact absurd hvs (by simp)
  | listElem xs f x hmem hcf ih =>
    cases hd : strList env xs with
    | error e => exact ⟨e, by simp only [strVal]; exact hd⟩
    | ok s =>
      simp only [strList] at hd
      cases hsi : strItems env xs with
      | error e => rw [hsi] at hd; exact absurd hd (by simp)
      | ok body =>
        rcases strItems_ok_mem hsi x hmem with ⟨vs, hvs⟩
        rcases strEntryVal_error_of_strVal (ih hb) with ⟨e, he⟩
        rw [he] at hvs
        exact absurd hvs (by simp)

/-! ### Iteration numbering facts -/

theorem foldl_max_le_init : ∀ (xs : List Int) (acc : Int), acc ≤ xs.foldl max acc
  | [], acc => le_refl acc
  | z :: zs, acc =>
    le_trans (le_max_left acc z) (foldl_max_le_init zs (max acc z))

theorem foldl_max_mem_le : ∀ (xs : List Int) (acc y : Int), y ∈ xs → y ≤ xs.foldl max acc
  | [], _, y, h => absurd h (List.not_mem_nil y)
  | z :: zs, acc, y, h => by
    rcases List.mem_cons.mp h with rfl | hmem
    · exact le_trans (le_max_right acc y) (foldl_max_le_init zs _)
    · exact foldl_max_mem_le zs _ y hmem

/-- Every trial row carrying the key has an iteration strictly below the next
iteration the counter hands out: the freshly opened row never collides. -/
theorem iteration_lt_next (trials : List TrialRow) (key : String) :
    ∀ r ∈ trials, r.variant = key → r.iteration < idVariantIteration trials key := by
  intro r hr hkey
  have hrf : r ∈ trials.filter (fun t => t.variant == key) :=
    List.mem_filter.mpr ⟨hr, by simp [hkey]⟩
  cases hf : trials.filter (fun t => t.variant == key) with
  | nil => rw [hf] at hrf; cases hrf
  | cons r0 rs =>
    rw [hf] at hrf
    unfold idVariantIteration
    rw [hf]
    show r.iteration < List.foldl max r0.iteration (rs.map (fun t => t.iteration)) + 1
    rcases List.mem_cons.mp hrf with rfl | hmem
    · have := foldl_max_le_init (rs.map (fun t => t.iteration)) r.iteration
      omega
    · have h1 : r.iteration ∈ rs.map (fun t => t.iteration) :=
        List.mem_map_of_mem _ hmem
      have := foldl_max_mem_le (rs.map (fun t => t.iteration)) r0.iteration _ h1
      omega

theorem next_iteration_pos (trials : List TrialRow) (key : String)
    (h : ∀ r ∈ trials, 1 ≤ r.iteration) : 1 ≤ idVariantIteration trials key := by
  cases hf : trials.filter (fun t => t.variant == key) with
  | nil =>
    unfold idVariantIteration
    rw [hf]
  | cons r0 rs =>
    have hr0 : r0 ∈ trials :=
      List.mem_of_mem_filter (show r0 ∈ trials.filter (fun t => t.variant == key) by
        rw [hf]; exact List.mem_cons_self r0 rs)
    have h1 := h r0 hr0
    have h2 := foldl_max_le_init (rs.map (fun t => t.iteration)) r0.iteration
    unfold idVariantIteration
    rw [hf]
    show (1 : Int) ≤ List.foldl max r0.iteration (rs.map (fun t => t.iteration)) + 1
    omega

/-- Invariant of the trial ledger lifecycle: every recorded iteration is at
least 1. -/
theorem reachable_iterations_pos {db : List TrialRow} (h : ReachableLedger db) :
    ∀ r ∈ db, 1 ≤ r.iteration := by
  induction h with
  | nil => simp
  | openStep db key commit hdb ih =>
    intro r hr
    rcases List.mem_append.mp hr with hin | hnew
    · exact ih r hin
    · have he : r = openTrialRow key (idVariantIteration db key) commit := by
        simpa using hnew
      rw [he]
      exact next_iteration_pos db key ih
  | closeStep db key iter commit cpu results fname hdb ih =>
    intro r hr
    rcases List.mem_map.mp hr with ⟨r0, hr0, heq⟩
    have h0 := ih r0 hr0
    rw [← heq]
    by_cases hcond : (r0.variant == key && r0.iteration == iter) = true
    · rw [if_pos hcond]
      exact h0
    · rw [if_neg hcond]
      exact h0

/-! ### The closing update on a freshly opened row -/

theorem map_id_on {α : Type} (f : α → α) :
    ∀ (l : List α), (∀ x ∈ l, f x = x) → l.map f = l
  | [], _ => rfl
  | x :: xs, h => by
    rw [List.map_cons, h x (by simp), map_id_on f xs (fun y hy => h y (by simp [hy]))]

/-- Closing the row just opened at the counter's iteration touches exactly
that row: earlier rows either carry another key or a strictly smaller
iteration. -/
theorem applyTrialUpdate_fresh (trials : List TrialRow) (master : String)
    (commit0 commit cpu metrics fname : String)
    (hcommit : commit ≠ "") (hcpu : cpu ≠ "") (hmetrics : metrics ≠ "")
    (hf : fname ≠ "") :
    applyTrialUpdate
        (trials ++ [openTrialRow master (idVariantIteration trials master) commit0])
        master (idVariantIteration trials master) commit cpu metrics fname
      = trials ++ [{ variant := master,
                     iteration := idVariantIteration trials master,
                     commit := commit, cpu_time := some cpu,
                     results := some metrics,
                     filename := some fname }] := by
  unfold applyTrialUpdate
  rw [List.map_append]
  congr 1
  · apply map_id_on
    intro r hr
    by_cases hv : r.variant = master
    · have hlt := iteration_lt_next trials master r hr hv
      have : (r.iteration == idVariantIteration trials master) = false := by
        simp
        omega
      simp [this]
    · have : (r.variant == master) = false := by simpa using hv
      simp [this]
  · have hcB : (commit != "") = true := by simpa using hcommit
    have hpB : (cpu != "") = true := by simpa using hcpu
    have hmB : (metrics != "") = true := by simpa using hmetrics
    have hfB : (fname != "") = true := by simpa using hf
    simp [openTrialRow, hcB, hpB, hmB, hfB]

theorem trialFilename_ne_empty (exName master : String) (it : Int) :
    trialFilename exName master it ≠ "" := by
  intro h
  have h2 : (trialFilename exName master it).length = 0 := by rw [h]; rfl
  unfold trialFilename at h2
  simp only [String.length_append] at h2
  have h6 : ("trial_").length = 6 := rfl
  omega

/-! ### Concrete inputs used by counterexamples and witnesses -/

/-- An interpreter state with no relevant loaded modules (none of the
concrete values below contain an importable function). -/
def env0 : Env := ⟨[]⟩

/-- A lambda: fname is the anonymous marker. -/
def lamA : FuncObj := ⟨81, "<lambda>", "<lambda>", "mymod", "function"⟩

/-- A named function declared in the interactive entry module. -/
def mainFn : FuncObj := ⟨5, "g", "g", "__main__", "function"⟩

/-- A method defined in a class body of module mymod: its qualified name is
the dotted path K.m, and the module object genuinely contains it under
attribute K, then m. -/
def methodFn : FuncObj := ⟨7, "m", "K.m", "mymod", "function"⟩

/-- The class object K holding the method object (id 7). -/
def classK : PyObj := .mk 2 [("m", .mk 7 [])]

/-- The module object mymod with the single top-level attribute K. -/
def modM : PyObj := .mk 1 [("K", classK)]

/-- sys.modules holding mymod. -/
def envM : Env := ⟨[("mymod", modM)]⟩

/-! ### Claims -/

/-- Claim C9 (confirmed): canonicalizing an empty mapping yields the single
closing brace and an empty sequence the single closing bracket, because the
two-character separator strip also consumes the opening delimiter when no
elements were rendered.  Stated both for the full canonicalization pipeline
and for the Strict renderers themselves. -/
theorem c9_empty_containers (env : Env) :
    canonicalizeVals env (PyVal.dict []) = .ok "\x7d"
    ∧ canonicalizeVals env (PyVal.list []) = .ok "]"
    ∧ strDict env [] = .ok "\x7d"
    ∧ strList env [] = .ok "]" :=
  ⟨rfl, rfl, rfl, rfl⟩

/-- Counterexample to claim C1 as stated: two semantically equal mappings
that differ only in the key insertion order of a NESTED mapping canonicalize
to different strings, because only the top level is sorted; the nested
mapping is rendered in its own insertion order. -/
theorem c1_counterexample :
    canonicalizeVals env0
        (PyVal.dict [(.str "x", .dict [(.str "b", .int 1), (.str "a", .int 2)])])
      = .ok "\x7b'x': \x7b'b': 1, 'a': 2\x7d\x7d"
    ∧ canonicalizeVals env0
        (PyVal.dict [(.str "x", .dict [(.str "a", .int 2), (.str "b", .int 1)])])
      = .ok "\x7b'x': \x7b'a': 2, 'b': 1\x7d\x7d"
    ∧ ("\x7b'x': \x7b'b': 1, 'a': 2\x7d\x7d" : String)
        ≠ "\x7b'x': \x7b'a': 2, 'b': 1\x7d\x7d" :=
  ⟨rfl, rfl, by decide⟩

/-- Claim C1 (amended): canonicalization of a mapping renders its TOP-LEVEL
keys in sorted order irrespective of insertion order, so two equal mappings
with distinct string keys that differ only in top-level insertion order
yield byte-identical strings; in particular both insertion orders of the
example mapping yield exactly the claimed string.  (Nested mappings keep
their own insertion order, see the counterexample.) -/
theorem c1_top_level_key_sorting (env : Env) (es1 es2 : List (PyVal × PyVal))
    (hstr : ∀ e ∈ es1, isStrKey e.1 = true)
    (hnd : (es1.map (fun e => keyStr e.1)).Nodup)
    (hperm : es1.Perm es2) :
    canonicalizeVals env (PyVal.dict es1) = canonicalizeVals env (PyVal.dict es2)
    ∧ canonicalizeVals env (PyVal.dict [(.str "b", .int 1), (.str "a", .int 2)])
        = .ok "\x7b'a': 2, 'b': 1\x7d"
    ∧ canonicalizeVals env (PyVal.dict [(.str "a", .int 2), (.str "b", .int 1)])
        = .ok "\x7b'a': 2, 'b': 1\x7d" :=
  ⟨dictCanon_perm env es1 es2 hstr hnd hperm, rfl, rfl⟩

theorem c1_witness :
    canonicalizeVals env0 (PyVal.dict [(.str "b", .int 1), (.str "a", .int 2)])
      = canonicalizeVals env0 (PyVal.dict [(.str "a", .int 2), (.str "b", .int 1)]) :=
  (c1_top_level_key_sorting env0
    [(.str "b", .int 1), (.str "a", .int 2)]
    [(.str "a", .int 2), (.str "b", .int 1)]
    (by decide) (by decide) (List.Perm.swap _ _ _)).1

/-- Counterexample to claim C2 as stated: canonicalizing a value containing
an anonymous function does NOT always raise.  A bare lambda parameter takes
the plain fallback of verify-variant-name (it is neither a Mapping nor a
non-string Collection), so the default str() renders it, memory address and
all, and canonicalization SUCCEEDS — even though cleanstr on the very same
value raises the lambda ValueError. -/
theorem c2_counterexample :
    canonicalizeVals env0 (PyVal.func lamA) = .ok "<function <lambda> at 0x51>"
    ∧ cleanstr env0 (PyVal.func lamA) = .error lambdaErr :=
  ⟨rfl, rfl⟩

/-- Claim C2 (amended): the recursive canonical renderer (cleanstr on
leaves, the Strict classes on containers) never produces a string from a
value containing a callable that is anonymous, declared in the interactive
entry module, defined in a local scope, from an unloaded module, or not
retrievable as the identical object under its qualified name; directly on
the callable the anonymous case raises the ValueError and each of the other
cases the ImportError.  The parameter-canonicalization pipeline only applies
this renderer when the top-level value is a mapping or a sortable non-string
collection: a bad callable at the top level, or inside an unorderable
collection, is rendered by the default str() without any error (see the
counterexample). -/
theorem c2_unreproducible (env : Env) (v : PyVal) (f : FuncObj)
    (hc : ContainsFunc v f) (hb : badFunc env f) :
    (∃ e, strVal env v = .error e)
    ∧ (isLambdaF f → strVal env (PyVal.func f) = .error lambdaErr)
    ∧ (¬ isLambdaF f → strVal env (PyVal.func f) = .error (importErr f)) := by
  refine ⟨strVal_error_of_contains hc hb, ?lam, ?imp⟩
  · intro hl
    exact cleanstr_lambda env f hl
  · intro hnl
    rcases hb with hl | hu
    · exact absurd hl hnl
    · exact cleanstr_unimportable env f hnl hu

theorem c2_witness :
    (∃ e, strVal env0 (PyVal.list [.func mainFn]) = .error e)
    ∧ (isLambdaF mainFn → strVal env0 (PyVal.func mainFn) = .error lambdaErr)
    ∧ (¬ isLambdaF mainFn →
        strVal env0 (PyVal.func mainFn) = .error (importErr mainFn)) :=
  c2_unreproducible env0 (PyVal.list [.func mainFn]) mainFn
    (ContainsFunc.listElem _ mainFn _ (by simp) (ContainsFunc.self mainFn))
    (Or.inr (Or.inl rfl))

/-- Claim C3 (confirmed): variant registration is idempotent and write-once.
With canonical string s for the parameter value: no row for the variant id
inserts (id, s); an existing row with the same stored string leaves the
table unchanged and succeeds; an existing row with a different stored string
raises the Variant-Conflict RuntimeError whose message interpolates the
argument name, the variant id, the stored value and the attempted value,
and no table mutation is possible on that path. -/
theorem c3_variant_registration (env : Env) (trial_db : String)
    (table : List (String × String)) (p : Param) (s : String)
    (hcanon : canonicalizeVals env p.vals = .ok s) :
    (table.find? (fun row => row.1 == p.id_name) = Option.none →
      verifyVariantName env trial_db table p = .ok (table ++ [(p.id_name, s)]))
    ∧ (∀ row, table.find? (fun row => row.1 == p.id_name) = some row → row.2 = s →
      verifyVariantName env trial_db table p = .ok table)
    ∧ (∀ row, table.find? (fun row => row.1 == p.id_name) = some row → row.2 ≠ s →
      verifyVariantName env trial_db table p
        = .error (.runtimeError (conflictMsg trial_db p row.2 s))) := by
  unfold canonicalizeVals at hcanon
  cases hn : normalizeVals p.vals with
  | error e => rw [hn] at hcanon; exact absurd hcanon (by simp)
  | ok nv =>
    rw [hn] at hcanon
    dsimp only at hcanon
    refine ⟨?abs, ?same, ?diff⟩
    · intro hfind
      unfold verifyVariantName
      rw [hn, hfind]
      dsimp only
      rw [hcanon]
    · intro row hfind hsame
      unfold verifyVariantName
      rw [hn, hfind]
      dsimp only
      rw [hcanon, hsame]
      simp
    · intro row hfind hdiff
      unfold verifyVariantName
      rw [hn, hfind]
      dsimp only
      rw [hcanon]
      have hB : (row.2 != s) = true := by simpa using hdiff
      dsimp only
      rw [if_pos hB]

theorem c3_witness :
    verifyVariantName env0 "trials.db" [("A", "6")] ⟨"A", "foo", .int 5⟩
      = .error (.runtimeError
          (conflictMsg "trials.db" ⟨"A", "foo", .int 5⟩ "6" "5")) :=
  (c3_variant_registration env0 "trials.db" [("A", "6")] ⟨"A", "foo", .int 5⟩ "5"
    rfl).2.2 ("A", "6") rfl (by decide)

/-- Claim C4 (confirmed): when the experiment code raises inside the
isolated environment, the run still closes the trial ledger record — the
closing update writes cpu time, metrics and filename into the (master key,
iteration) row — and the captured exception is re-raised only after that
update is part of the final database state. -/
theorem c4_failure_closes_then_reraises (env : Env)
    (trial_db exName commit : String) (untracked : List String)
    (params : List Param) (m metrics cpu : String) (st : RunState)
    (ts1 : VariantTables)
    (hreg : registerParams env trial_db st.variantTables params untracked
      = (ts1, Option.none))
    (hcommit : commit ≠ "") (hcpu : cpu ≠ "") (hmetrics : metrics ≠ "") :
    runModel env trial_db exName commit untracked params ⟨some m, metrics⟩ cpu st
      = ({ variantTables := ts1,
           trials := st.trials ++ [{
             variant := masterVariant params,
             iteration := idVariantIteration st.trials (masterVariant params),
             commit := commit, cpu_time := some cpu, results := some metrics,
             filename := some (trialFilename exName (masterVariant params)
               (idVariantIteration st.trials (masterVariant params))) }] },
         some (PyError.cellExecutionError m)) := by
  unfold runModel
  rw [hreg]
  dsimp only
  rw [applyTrialUpdate_fresh st.trials (masterVariant params) commit commit cpu
    metrics _ hcommit hcpu hmetrics
    (trialFilename_ne_empty exName (masterVariant params)
      (idVariantIteration st.trials (masterVariant params)))]
  rfl

theorem c4_witness :
    runModel env0 "trials.db" "exp" "c0ffee" [] [⟨"A", "foo", .int 5⟩]
        ⟨some "boom", "None"⟩ "0.5" ⟨[], []⟩
      = ({ variantTables := [("foo", [("A", "5")])],
           trials := [{ variant := "A", iteration := 1, commit := "c0ffee",
                        cpu_time := some "0.5", results := some "None",
                        filename := some "trial_exp_A_1.html" }] },
         some (PyError.cellExecutionError "boom")) :=
  c4_failure_closes_then_reraises env0 "trials.db" "exp" "c0ffee" []
    [⟨"A", "foo", .int 5⟩] "boom" "None" "0.5" ⟨[], []⟩ [("foo", [("A", "5")])]
    rfl (by decide) (by decide) (by decide)

/-- Claim C5 (confirmed): the master variant key sorts the (argument name,
variant id) pairs by argument name and joins the variant ids with the dash
delimiter; for pairwise distinct argument names it does not depend on the
ordering of the parameter list, and the example configuration yields B-A
because bar sorts before foo. -/
theorem c5_master_key (ps1 ps2 : List Param)
    (hnd : (ps1.map (fun p => p.arg_name)).Nodup) (hperm : ps1.Perm ps2) :
    masterVariant ps1 = masterVariant ps2
    ∧ masterVariant [⟨"A", "foo", .int 0⟩, ⟨"B", "bar", .int 0⟩] = "B-A" :=
  ⟨masterVariant_perm ps1 ps2 hperm hnd, rfl⟩

theorem c5_witness :
    masterVariant [⟨"A", "foo", .int 0⟩, ⟨"B", "bar", .int 0⟩]
      = masterVariant [⟨"B", "bar", .int 0⟩, ⟨"A", "foo", .int 0⟩] :=
  (c5_master_key [⟨"A", "foo", .int 0⟩, ⟨"B", "bar", .int 0⟩]
    [⟨"B", "bar", .int 0⟩, ⟨"A", "foo", .int 0⟩]
    (by decide) (List.Perm.swap _ _ _)).1

/-- Claim C6 (confirmed): over every ledger the trial-record lifecycle can
produce, the iteration counter returns 1 when no row carries the master key,
otherwise the maximum recorded iteration for that key plus one, and the
result is always at least 1. -/
theorem c6_iteration_counter (db : List TrialRow) (key : String)
    (h : ReachableLedger db) :
    (db.filter (fun r => r.variant == key) = [] → idVariantIteration db key = 1)
    ∧ (∀ r rs, db.filter (fun r => r.variant == key) = r :: rs →
        idVariantIteration db key
          = maxIntList r.iteration (rs.map (fun t => t.iteration)) + 1)
    ∧ 1 ≤ idVariantIteration db key := by
  refine ⟨?nil, ?cons, next_iteration_pos db key (reachable_iterations_pos h)⟩
  · intro hf
    unfold idVariantIteration
    rw [hf]
  · intro r rs hf
    unfold idVariantIteration
    rw [hf]

theorem c6_witness :
    (idVariantIteration [openTrialRow "B-A" 1 "c"] "B-A"
      = maxIntList (1 : Int) [] + 1)
    ∧ 1 ≤ idVariantIteration [openTrialRow "B-A" 1 "c"] "B-A" :=
  have hreach : ReachableLedger [openTrialRow "B-A" 1 "c"] :=
    ReachableLedger.openStep [] "B-A" "c" ReachableLedger.nil
  ⟨(c6_iteration_counter [openTrialRow "B-A" 1 "c"] "B-A" hreach).2.1
      (openTrialRow "B-A" 1 "c") [] rfl,
    (c6_iteration_counter [openTrialRow "B-A" 1 "c"] "B-A" hreach).2.2⟩

/-- Counterexample to claim C7 as stated: a list whose elements cannot be
ordered (a lambda and a dict) falls back to the ORIGINAL value rendered with
the default str(), so canonicalization SUCCEEDS with a string exposing the
lambda's memory address — the elements are not rendered in canonical form,
and indeed their canonical rendering would have raised the lambda
ValueError. -/
theorem c7_counterexample :
    canonicalizeVals env0 (PyVal.list [.func lamA, .dict []])
      = .ok "[<function <lambda> at 0x51>, \x7b\x7d]"
    ∧ strList env0 [.func lamA, .dict []] = .error lambdaErr :=
  ⟨rfl, rfl⟩

/-- Claim C7 (amended): canonicalization of a non-string sequence parameter
first sorts the elements; when sorting succeeds the sorted elements are
recursively canonicalized by the Strict renderer (strings quoted, mappings
rendered, callables validated); when an element comparison is unsupported
the ORIGINAL value is used as is and rendered with the default str(),
without canonicalizing the elements. -/
theorem c7_sequence_canonicalization (env : Env) (xs ys : List PyVal)
    (e : PyError) :
    (sortE pyLt xs = .ok ys →
      canonicalizeVals env (PyVal.list xs) = strList env ys)
    ∧ (sortE pyLt xs = .error e →
      canonicalizeVals env (PyVal.list xs) = .ok (pyStr (PyVal.list xs))) := by
  constructor
  · intro h
    unfold canonicalizeVals normalizeVals
    dsimp only
    rw [h]
    rfl
  · intro h
    unfold canonicalizeVals normalizeVals
    dsimp only
    rw [h]
    rfl

theorem c7_witness :
    (canonicalizeVals env0 (PyVal.list [.int 2, .int 1])
      = strList env0 [.int 1, .int 2])
    ∧ (canonicalizeVals env0 (PyVal.list [.func lamA, .int 3])
      = .ok (pyStr (PyVal.list [.func lamA, .int 3]))) :=
  ⟨(c7_sequence_canonicalization env0 [.int 2, .int 1] [.int 1, .int 2]
      (.typeError "unused")).1 rfl,
    (c7_sequence_canonicalization env0 [.func lamA, .int 3] []
      (.typeError "'<' not supported between instances")).2 rfl⟩

/-- Claim C8 (confirmed): an error raised while registering parameters
(Unreproducible-Value, Variant-Conflict, or any other identity-layer error)
aborts the run with the trials table exactly as it was: no row is opened for
any (master key, iteration) pair. -/
theorem c8_identity_error_aborts (env : Env)
    (trial_db exName commit : String) (untracked : List String)
    (params : List Param) (outcome : ExecOutcome) (cpu : String)
    (st : RunState) (ts1 : VariantTables) (e : PyError)
    (hreg : registerParams env trial_db st.variantTables params untracked
      = (ts1, some e)) :
    runModel env trial_db exName commit untracked params outcome cpu st
      = ({ variantTables := ts1, trials := st.trials }, some e) := by
  unfold runModel
  rw [hreg]

theorem c8_witness :
    runModel env0 "trials.db" "exp" "c" [] [⟨"A", "foo", .int 5⟩]
        ⟨Option.none, "None"⟩ "0.1"
        ⟨[("foo", [("A", "6")])], [openTrialRow "B" 1 "c"]⟩
      = ({ variantTables := [("foo", [("A", "6")])],
           trials := [openTrialRow "B" 1 "c"] },
         some (.runtimeError
           (conflictMsg "trials.db" ⟨"A", "foo", .int 5⟩ "6" "5"))) :=
  c8_identity_error_aborts env0 "trials.db" "exp" "c" [] [⟨"A", "foo", .int 5⟩]
    ⟨Option.none, "None"⟩ "0.1" ⟨[("foo", [("A", "6")])], [openTrialRow "B" 1 "c"]⟩
    [("foo", [("A", "6")])]
    (.runtimeError (conflictMsg "trials.db" ⟨"A", "foo", .int 5⟩ "6" "5")) rfl

/-- Claim C10 (confirmed): for a function defined inside a class body — its
qualified name contains a dot — cleanstr raises the ImportError even when
the function is genuinely reachable from its declaring module by traversing
the dotted path, because the retrievability check performs one flat
attribute lookup of the full dotted name on the module, and module attribute
names never contain dots. -/
theorem c10_flat_lookup_rejects_methods (env : Env) (f : FuncObj)
    (nm : String) (mod : PyObj)
    (hnl : ¬ isLambdaF f) (hnm : f.module ≠ "__main__")
    (hnloc : strContainsSub f.qualname "<locals>" = false)
    (hfind : env.modules.find? (fun m => m.1 == f.module) = some (nm, mod))
    (hattrs : ∀ a ∈ mod.attrs, strContainsSub a.1 "." = false)
    (hdot : strContainsSub f.qualname "." = true)
    (hreach : dottedReachable env f) :
    cleanstr env (PyVal.func f) = .error (importErr f) := by
  have hflat : objAttr mod f.qualname = Option.none := by
    have hnone : mod.attrs.find? (fun a => a.1 == f.qualname) = Option.none := by
      rw [List.find?_eq_none]
      intro a ha heq
      have he : a.1 = f.qualname := by simpa using heq
      have := hattrs a ha
      rw [he, hdot] at this
      cases this
    unfold objAttr
    rw [hnone]
    rfl
  have hb : (f.fname == "<lambda>") = false := by
    unfold isLambdaF at hnl
    simpa using hnl
  have hmB : (f.module == "__main__") = false := by simpa using hnm
  simp only [cleanstr, hb, hmB, hnloc, Bool.false_eq_true, if_false]
  rw [hfind]
  dsimp only [Option.map]
  rw [hflat]

theorem c10_witness :
    cleanstr envM (PyVal.func methodFn) = .error (importErr methodFn) :=
  c10_flat_lookup_rejects_methods envM methodFn "mymod" modM
    (by simp [isLambdaF, methodFn]) (by simp [methodFn]) rfl rfl (by decide) rfl
    ⟨"mymod", modM, rfl, PyObj.mk 7 [], rfl, rfl⟩
